import Mathlib

/-!
# Verification of the CMElectronicsTools reconciliation scripts

Shallow embedding of the identity-reconciliation and backfill logic of the
repository's Python scripts:

* `AssembledOnBackfill.py` — backfills `board_assembled_on` from the
  traceability store (barcode cleaning, candidate generation, batched
  lookup, sentinel default, transactional write-back);
* `DoubloeCheckFaNumbers.py` — backfills `board_fa_nummer` /
  `board_artikel_nummer` the same way, with backslash-prefix stripping;
* `UploadDatabase.py` — the duplicate scanner
  (`build_offending_numbers_df`) over the two barcode columns;
* `ScanForDuplicates.py` — the SQL `CASE` classification of duplicates.

Conventions of the embedding:
* Python strings are Lean `String`s restricted to the characters the data
  actually carries; `re.sub(r"\s+", "", s)` / `str.strip()` are modelled
  over the six ASCII whitespace characters Python's `\s` matches in that
  range.
* Python `dict` is an association list where an insert prepends, so a
  lookup finds the most recent insert (`dictGet?` / `dictInsert`).
* `datetime.strptime` for the six fixed formats the scripts use is
  modelled by `strptime` below, including Python's 1-or-2-digit field
  matching, its 4-digit year, and `datetime`'s day-of-month validation.
* `pandas.to_datetime` (the locale-agnostic fallback of
  `coerce_datetime`) is an external library; it is kept abstract as two
  oracle parameters, one per `dayfirst` flag.
* The MySQL connection runs with `autocommit=False`: `cursor.execute`
  buffers an update inside the open transaction, `commit` applies the
  buffer to the store, `rollback` discards it.  The store is a list of
  rows; a pass returns the committed store.
-/

namespace CMTools

/-- The six ASCII characters Python's `\s` and `str.strip()` treat as
whitespace: space, tab, newline, carriage return, vertical tab, form feed. -/
def isPySpace (c : Char) : Bool :=
  c = ' ' || c = '\t' || c = '\n' || c = '\r' || c = '\x0b' || c = '\x0c'

/-- Python `str.strip()` on a list of characters. -/
def pyStripChars (l : List Char) : List Char :=
  ((l.dropWhile isPySpace).reverse.dropWhile isPySpace).reverse

/-- Python `str.strip()`. -/
def pyStrip (s : String) : String :=
  ⟨pyStripChars s.data⟩

/-- MySQL `TRIM(s)`: removes leading and trailing space characters only
(not tabs or newlines). -/
def mysqlTrimChars (l : List Char) : List Char :=
  ((l.dropWhile (· = ' ')).reverse.dropWhile (· = ' ')).reverse

/-- MySQL `TRIM` on strings. -/
def mysqlTrim (s : String) : String :=
  ⟨mysqlTrimChars s.data⟩

/-- `_norm_s(v)` of the backfill scripts, restricted to a nullable string:
`"" if v is None else str(v).strip()`. -/
def normSO (v : Option String) : String :=
  pyStrip (v.getD "")

/-- A Python `datetime.datetime` value (no timezone, as the scripts use it). -/
structure PyDateTime where
  year : Nat
  month : Nat
  day : Nat
  hour : Nat
  minute : Nat
  second : Nat
deriving DecidableEq, Repr

/-- Tokens of the fixed `strptime` formats the scripts try:
`%m`, `%d`, `%Y`, `%H`, `%M`, `%S` and literal characters. -/
inductive FmtTok where
  | m | d | Y | H | Mi | S
  | lit (c : Char)
deriving DecidableEq, Repr

/-- Numeric value of an ASCII digit. -/
def digitVal (c : Char) : Nat :=
  c.toNat - 48

/-- A 1-or-2-digit field of `strptime` (`%m`, `%d`, `%H`, `%M`, `%S`).
Python compiles these directives to alternations that accept a two-digit
value inside `[lo, hi]`, falling back to a single digit inside the range. -/
def parseField2 (lo hi : Nat) (l : List Char) : Option (Nat × List Char) :=
  match l with
  | c1 :: c2 :: rest =>
    if c1.isDigit && c2.isDigit then
      let v := digitVal c1 * 10 + digitVal c2
      if lo ≤ v && v ≤ hi then some (v, rest)
      else if lo ≤ digitVal c1 && digitVal c1 ≤ hi then some (digitVal c1, c2 :: rest)
      else none
    else if c1.isDigit && lo ≤ digitVal c1 && digitVal c1 ≤ hi then
      some (digitVal c1, c2 :: rest)
    else none
  | [c1] =>
    if c1.isDigit && lo ≤ digitVal c1 && digitVal c1 ≤ hi then some (digitVal c1, [])
    else none
  | [] => none

/-- The exactly-4-digit `%Y` field of Python's `strptime`. -/
def parseYear4 (l : List Char) : Option (Nat × List Char) :=
  match l with
  | a :: b :: c :: d :: rest =>
    if a.isDigit && b.isDigit && c.isDigit && d.isDigit then
      some (digitVal a * 1000 + digitVal b * 100 + digitVal c * 10 + digitVal d, rest)
    else none
  | _ => none

/-- One `strptime` directive applied to the remaining input. -/
def runTok (t : FmtTok) (acc : PyDateTime) (l : List Char) :
    Option (PyDateTime × List Char) :=
  match t with
  | .m => (parseField2 1 12 l).map (fun p => ({ acc with month := p.1 }, p.2))
  | .d => (parseField2 1 31 l).map (fun p => ({ acc with day := p.1 }, p.2))
  | .H => (parseField2 0 23 l).map (fun p => ({ acc with hour := p.1 }, p.2))
  | .Mi => (parseField2 0 59 l).map (fun p => ({ acc with minute := p.1 }, p.2))
  | .S => (parseField2 0 59 l).map (fun p => ({ acc with second := p.1 }, p.2))
  | .Y => (parseYear4 l).map (fun p => ({ acc with year := p.1 }, p.2))
  | .lit c =>
    match l with
    | c2 :: rest => if c2 = c then some (acc, rest) else none
    | [] => none

/-- A whole format applied left to right. -/
def runFmt (toks : List FmtTok) (acc : PyDateTime) (l : List Char) :
    Option (PyDateTime × List Char) :=
  match toks with
  | [] => some (acc, l)
  | t :: ts =>
    match runTok t acc l with
    | some (acc2, l2) => runFmt ts acc2 l2
    | none => none

/-- Days in a month, with the Gregorian leap rule `datetime` validates by. -/
def daysInMonth (y m : Nat) : Nat :=
  if m = 2 then
    if (y % 4 = 0 && y % 100 ≠ 0) || y % 400 = 0 then 29 else 28
  else if m = 4 || m = 6 || m = 9 || m = 11 then 30 else 31

/-- `strptime` defaults: year 1900, January 1, midnight. -/
def strptimeDefault : PyDateTime :=
  ⟨1900, 1, 1, 0, 0, 0⟩

/-- `datetime.strptime(s, fmt)` for one of the scripts' fixed formats:
the whole string must match, and the constructed `datetime` must be a
valid date (`MINYEAR = 1`; the day must exist in the month). -/
def strptime (toks : List FmtTok) (s : String) : Option PyDateTime :=
  match runFmt toks strptimeDefault s.data with
  | some (acc, []) =>
    if 1 ≤ acc.year && acc.day ≤ daysInMonth acc.year acc.month then some acc
    else none
  | _ => none

/-- `"%m/%d/%Y %H:%M:%S"`, `"%m/%d/%Y %H:%M"`, `"%m/%d/%Y"` — the
month-first chain tried first by `coerce_datetime`. -/
def mdyFormats : List (List FmtTok) :=
  [[.m, .lit '/', .d, .lit '/', .Y, .lit ' ', .H, .lit ':', .Mi, .lit ':', .S],
   [.m, .lit '/', .d, .lit '/', .Y, .lit ' ', .H, .lit ':', .Mi],
   [.m, .lit '/', .d, .lit '/', .Y]]

/-- `"%d.%m.%Y %H:%M:%S"`, `"%d.%m.%Y %H:%M"`, `"%d.%m.%Y"` — the
day-first (German) chain tried second. -/
def dmyFormats : List (List FmtTok) :=
  [[.d, .lit '.', .m, .lit '.', .Y, .lit ' ', .H, .lit ':', .Mi, .lit ':', .S],
   [.d, .lit '.', .m, .lit '.', .Y, .lit ' ', .H, .lit ':', .Mi],
   [.d, .lit '.', .m, .lit '.', .Y]]

/-- First format of a chain that parses the string wins
(`for fmt in (...): try: return strptime(s, fmt) except: pass`). -/
def tryFormats (fmts : List (List FmtTok)) (s : String) : Option PyDateTime :=
  match fmts with
  | [] => none
  | f :: rest =>
    match strptime f s with
    | some d => some d
    | none => tryFormats rest s

/-- `coerce_datetime(val)` of `AssembledOnBackfill.py` (lines 41-68) for a
string input: empty/blank returns `None`; otherwise the stripped string is
tried against the month-first chain, then the day-first chain, then
`pd.to_datetime` with `dayfirst=False` and finally with `dayfirst=True`
(the two pandas calls are abstract oracles `pdMonthFirst`, `pdDayFirst`).
The numeric excel-serial branch does not apply to strings. -/
def coerceDatetimeStr (s : String)
    (pdMonthFirst pdDayFirst : String → Option PyDateTime) : Option PyDateTime :=
  if pyStrip s = "" then none
  else
    let t := pyStrip s
    match tryFormats mdyFormats t with
    | some d => some d
    | none =>
      match tryFormats dmyFormats t with
      | some d => some d
      | none =>
        match pdMonthFirst t with
        | some d => some d
        | none => pdDayFirst t

/-- `_clean_barcode(v)` (both backfill scripts): `str(v)` (`""` for `None`),
all whitespace removed (`re.sub(r"\s+", "", s)`), `.strip()` (now a no-op),
`.upper()`. -/
def cleanBarcode (v : Option String) : String :=
  ⟨(pyStripChars ((v.getD "").data.filter (fun c => !isPySpace c))).map Char.toUpper⟩

/-- Python `str.isdigit()` restricted to ASCII: non-empty and all digits. -/
def isDigitStr (s : String) : Bool :=
  !s.data.isEmpty && s.data.all Char.isDigit

/-- Python `s.startswith("CM")`. -/
def startsWithCM (s : String) : Bool :=
  match s.data with
  | 'C' :: 'M' :: _ => true
  | _ => false

/-- `_barcode_candidates(v)` (both backfill scripts, AssembledOnBackfill.py
lines 77-84): empty clean form yields no candidate; the clean form is always
the first candidate; a purely numeric clean form without the `CM` prefix also
yields `"CM" + b` as a second candidate. -/
def barcodeCandidates (v : Option String) : List String :=
  let b := cleanBarcode v
  if b = "" then []
  else if isDigitStr b && !startsWithCM b then [b, "CM" ++ b]
  else [b]

/-- A Python `dict` as an association list: an insert prepends, so the most
recent insert for a key shadows older ones. -/
def dictInsert {α β : Type} (m : List (α × β)) (k : α) (v : β) : List (α × β) :=
  (k, v) :: m

/-- `dict.get(k)`: the most recently inserted value for `k`, if any. -/
def dictGet? {α β : Type} [DecidableEq α] (m : List (α × β)) (k : α) : Option β :=
  (m.find? (fun p => p.1 = k)).map (fun p => p.2)

/-- The dedup loop shared by both paced fetchers: `_norm_s` each barcode,
drop empties, keep the first occurrence of each normalized value. -/
def dedupNorm (barcodes : List String) : List String :=
  barcodes.foldl
    (fun uniq b =>
      let bb := pyStrip b
      if bb = "" then uniq
      else if bb ∈ uniq then uniq
      else uniq ++ [bb])
    []

/-- Structural worker for `chunkList`: the fuel only bounds the recursion
depth and never runs out when it starts at the list's length, because each
chunk consumes at least one element. -/
def chunkListGo {α : Type} (size : Nat) : Nat → List α → List (List α)
  | _, [] => []
  | 0, l => [l]
  | fuel + 1, x :: xs => (x :: xs.take (size - 1)) :: chunkListGo size fuel (xs.drop (size - 1))

/-- `_chunked(items, size)`: consecutive chunks of `size` elements (both
scripts call it with `max(1, int(chunk_size))`, so `size ≥ 1` here). -/
def chunkList {α : Type} (size : Nat) (l : List α) : List (List α) :=
  chunkListGo size l.length l

/-- `fetch_trace_assembly_finished_for_barcodes_paced` of
`AssembledOnBackfill.py` (lines 127-169), minus the `time.sleep` pacing,
which has no effect on the result.  `store` abstracts one parameterized
`TRACE_SQL` query: it returns, for a chunk of barcodes, rows
`(Barcode, AssemblyFinishedAt)` where the timestamp can be `NULL`.
Each returned row is inserted under its `_norm_s`-ed barcode; a `NULL`
timestamp stays `None` (`coerce_datetime(None)` is `None`). -/
def fetchResolve (store : List String → List (String × Option PyDateTime))
    (barcodes : List String) (chunkSize : Nat) :
    List (String × Option PyDateTime) :=
  if barcodes = [] then []
  else
    (chunkList (max 1 chunkSize) (dedupNorm barcodes)).foldl
      (fun out chunk =>
        (store chunk).foldl
          (fun out row => dictInsert out (pyStrip row.1) row.2)
          out)
      []

/-- The characters after the first backslash, if any. -/
def afterFirstBackslash : List Char → List Char
  | [] => []
  | c :: rest => if c = '\\' then rest else afterFirstBackslash rest

/-- `_strip_before_backslash(s)` of `DoubloeCheckFaNumbers.py` (lines
116-120): strip; if a backslash occurs, keep only what follows the first
one, stripped again. -/
def stripBeforeBackslash (s : String) : String :=
  let t := pyStripChars s.data
  if '\\' ∈ t then ⟨pyStripChars (afterFirstBackslash t)⟩ else ⟨t⟩

/-- `fetch_trace_info_for_barcodes_paced` of `DoubloeCheckFaNumbers.py`
(lines 159-216), minus the pacing sleep.  `store` abstracts the
`TRACE_SQL` query: per chunk it returns rows
`(Barcode, Losname, Leiterplatte)` where the two names can be `NULL`
(`LEFT JOIN`).  Each name is stripped (`""` for `NULL`), the
`Leiterplatte` loses everything up to its first backslash, and the pair is
inserted `_norm_s`-ed under the `_norm_s`-ed barcode. -/
def fetchTraceInfo (store : List String → List (String × Option String × Option String))
    (barcodes : List String) (chunkSize : Nat) :
    List (String × String × String) :=
  if barcodes = [] then []
  else
    (chunkList (max 1 chunkSize) (dedupNorm barcodes)).foldl
      (fun out chunk =>
        (store chunk).foldl
          (fun out row =>
            let los := pyStrip (row.2.1.getD "")
            let lei0 := pyStrip (row.2.2.getD "")
            let lei : String :=
              if '\\' ∈ lei0.data then ⟨afterFirstBackslash lei0.data⟩ else lei0
            dictInsert out (pyStrip row.1) (pyStrip los, pyStrip lei))
          out)
      []

/-- A value of the `board_assembled_on` column: SQL `NULL`, a stored
string, or a `DATETIME` written by the backfill. -/
inductive DbCell where
  | null
  | str (s : String)
  | dt (d : PyDateTime)
deriving DecidableEq, Repr

/-- `board_assembled_on IS NULL OR TRIM(board_assembled_on) = ''` — the
row-selection predicate of the backfill `SELECT`.  A `DATETIME` value
renders as a non-empty string, so it never counts as empty. -/
def cellTrimEmpty (c : DbCell) : Bool :=
  match c with
  | .null => true
  | .str s => mysqlTrim s = ""
  | .dt _ => false

/-- `not _norm_s(assembled_old)` — the defensive skip in the update loop.
`str(datetime)` is a non-empty string, so a `DATETIME` never normalizes to
empty. -/
def cellNormEmpty (c : DbCell) : Bool :=
  match c with
  | .null => true
  | .str s => pyStrip s = ""
  | .dt _ => false

/-- One `circuit_boards` row as `AssembledOnBackfill.py` reads it:
`(id, board_top, board_bottom, board_assembled_on, board_erfasst_am)`. -/
structure BoardRow where
  id : Nat
  top : Option String
  bottom : Option String
  assembledOn : DbCell
  erfasstAm : Option String
deriving DecidableEq, Repr

/-- The `SELECT ... WHERE (board_assembled_on IS NULL OR
TRIM(board_assembled_on)='')` of `AssembledOnBackfill.py` line 238.
`ONLY_PROCESS_NEWER_THAN_STR` is `None` in the source, so
`_apply_row_date_filter` returns the rows unchanged and is omitted. -/
def selectBackfillRows (db : List BoardRow) : List BoardRow :=
  db.filter (fun r => cellTrimEmpty r.assembledOn)

/-- The per-row candidate list of step 2 of both `main`s: prefer the top
barcode's candidates, fall back to the bottom's. -/
def effCandsOf (top bottom : Option String) : List String :=
  let cands := barcodeCandidates top
  if cands = [] then barcodeCandidates bottom else cands

/-- Accumulator of the candidate-collection loop (step 2 of both `main`s). -/
structure Collected where
  rowCandidates : List (Nat × List String)
  barcodes : List String
  skippedNoBarcode : Nat
deriving Repr

/-- One iteration of step 2 of both `main`s: a row without any candidate is
tallied and skipped; another records its candidate list under its id and
extends the flat barcode list. -/
def collectStep (acc : Collected) (r : Nat × Option String × Option String) : Collected :=
  let cands := effCandsOf r.2.1 r.2.2
  if cands = [] then
    { acc with skippedNoBarcode := acc.skippedNoBarcode + 1 }
  else
    { acc with
      rowCandidates := acc.rowCandidates ++ [(r.1, cands)],
      barcodes := acc.barcodes ++ cands }

/-- Step 2 of both `main`s over rows `(id, top, bottom)`. -/
def collectCandidates (rows : List (Nat × Option String × Option String)) : Collected :=
  rows.foldl collectStep ⟨[], [], 0⟩

/-- The candidate loop of step 4 of `AssembledOnBackfill.main`:
`assembled_on = lookup.get(bc); if assembled_on is not None: break`.
A key stored with value `None` (a trace row with `NULL` timestamp) does
not stop the loop, just like an absent key. -/
def firstHit (lookup : List (String × Option PyDateTime)) : List String → Option PyDateTime
  | [] => none
  | c :: rest =>
    match dictGet? lookup c with
    | some (some d) => some d
    | _ => firstHit lookup rest

/-- `datetime(1900, 1, 1)` — the sentinel written when no candidate
resolves. -/
def DEFAULT_ASSEMBLY_DATE : PyDateTime :=
  ⟨1900, 1, 1, 0, 0, 0⟩

/-- The update loop of `AssembledOnBackfill.main` (lines 293-323) with a
failure injection `failOn`: executing `update_sql` for row id `i` raises
iff `failOn i`.  Returns the updates buffered in the open transaction and
the `updated` tally, or the raised error.  The re-coercion branch
(`if not isinstance(assembled_on, datetime)`) is unreachable here because
the lookup's values are typed `Option PyDateTime`, exactly what the
fetcher stores. -/
def applyUpdatesGo (rc : List (Nat × List String))
    (lookup : List (String × Option PyDateTime)) (failOn : Nat → Bool) :
    List BoardRow → List (Nat × PyDateTime) → Nat →
    Except Unit (List (Nat × PyDateTime) × Nat)
  | [], ws, upd => .ok (ws, upd)
  | r :: rest, ws, upd =>
    if cellNormEmpty r.assembledOn = false then
      applyUpdatesGo rc lookup failOn rest ws upd
    else
      let cands := (dictGet? rc r.id).getD []
      match firstHit lookup cands with
      | none =>
        if failOn r.id then .error ()
        else applyUpdatesGo rc lookup failOn rest (ws ++ [(r.id, DEFAULT_ASSEMBLY_DATE)]) (upd + 1)
      | some d =>
        if failOn r.id then .error ()
        else applyUpdatesGo rc lookup failOn rest (ws ++ [(r.id, d)]) (upd + 1)

/-- Effect of one buffered `UPDATE circuit_boards SET board_assembled_on=%s
WHERE id=%s` on one row. -/
def rowStep (r : BoardRow) (w : Nat × PyDateTime) : BoardRow :=
  if r.id = w.1 then { r with assembledOn := .dt w.2 } else r

/-- One buffered update applied to the whole table. -/
def applyWrite (db : List BoardRow) (w : Nat × PyDateTime) : List BoardRow :=
  db.map (fun r => rowStep r w)

/-- `mysql_conn.commit()`: the buffered updates become the stored table. -/
def commitWrites (db : List BoardRow) (ws : List (Nat × PyDateTime)) : List BoardRow :=
  ws.foldl applyWrite db

/-- How a pass ends: a normal return, or `sys.exit(code)`. -/
inductive RunExit where
  | normal
  | exitCode (n : Nat)
deriving DecidableEq, Repr

/-- Outcome of one `AssembledOnBackfill.main` pass: the committed store
and the reported tallies. -/
structure BackfillResult where
  db : List BoardRow
  exitSt : RunExit
  updated : Nat
  skippedNoBarcode : Nat
deriving Repr

/-- Step 2 of `AssembledOnBackfill.main` packaged over the selected rows. -/
def backfillCollected (db : List BoardRow) : Collected :=
  collectCandidates ((selectBackfillRows db).map (fun r => (r.id, r.top, r.bottom)))

/-- Step 3 of `AssembledOnBackfill.main`: the shared lookup map. -/
def backfillLookup (store : List String → List (String × Option PyDateTime))
    (chunkSize : Nat) (db : List BoardRow) : List (String × Option PyDateTime) :=
  fetchResolve store (backfillCollected db).barcodes chunkSize

/-- Step 4 of `AssembledOnBackfill.main`: the buffered writes, or the error
that aborts the transaction. -/
def backfillWriteAttempt (store : List String → List (String × Option PyDateTime))
    (chunkSize : Nat) (failOn : Nat → Bool) (db : List BoardRow) :
    Except Unit (List (Nat × PyDateTime) × Nat) :=
  applyUpdatesGo (backfillCollected db).rowCandidates (backfillLookup store chunkSize db)
    failOn (selectBackfillRows db) [] 0

/-- One pass of `AssembledOnBackfill.main` (lines 229-346) over the store
`db`: load the rows needing backfill (early return when none), collect
candidates (early return when no row has any), resolve them, buffer the
updates, and commit — or roll back and `sys.exit(3)` when a write raises. -/
def backfillPass (store : List String → List (String × Option PyDateTime))
    (chunkSize : Nat) (failOn : Nat → Bool) (db : List BoardRow) : BackfillResult :=
  if selectBackfillRows db = [] then ⟨db, .normal, 0, 0⟩
  else if (backfillCollected db).barcodes = [] then
    ⟨db, .normal, 0, (backfillCollected db).skippedNoBarcode⟩
  else
    match backfillWriteAttempt store chunkSize failOn db with
    | .error _ => ⟨db, .exitCode 3, 0, (backfillCollected db).skippedNoBarcode⟩
    | .ok (ws, upd) =>
      ⟨commitWrites db ws, .normal, upd, (backfillCollected db).skippedNoBarcode⟩

/-- One `circuit_boards` row as `DoubloeCheckFaNumbers.py` reads it:
`(id, board_top, board_bottom, board_fa_nummer, board_artikel_nummer,
board_erfasst_am)`.  The two target columns hold strings or `NULL`. -/
structure FaRow where
  id : Nat
  top : Option String
  bottom : Option String
  fa : Option String
  art : Option String
  erfasstAm : Option String
deriving DecidableEq, Repr

/-- `col IS NULL OR TRIM(col) = ''` for a nullable string column. -/
def strTrimEmpty (c : Option String) : Bool :=
  match c with
  | none => true
  | some s => mysqlTrim s = ""

/-- The `SELECT` of `DoubloeCheckFaNumbers.main` (lines 290-302): rows
where the FA number or the article number is missing.
`ONLY_PROCESS_NEWER_THAN_STR` is `None`, so the date filter is again the
identity and omitted. -/
def selectFaRows (db : List FaRow) : List FaRow :=
  db.filter (fun r => strTrimEmpty r.fa || strTrimEmpty r.art)

/-- The candidate loop of step 4 of `DoubloeCheckFaNumbers.main`:
`info = lookup.get(bc); if info: break`.  The stored values are 2-tuples,
and any tuple is truthy in Python, so the first *present* key wins even if
both its fields are empty strings. -/
def firstSome (lookup : List (String × String × String)) : List String → Option (String × String)
  | [] => none
  | c :: rest =>
    match dictGet? lookup c with
    | some info => some info
    | none => firstSome lookup rest

/-- The update loop of `DoubloeCheckFaNumbers.main` (lines 362-392) with
failure injection, buffering `(id, fa_new, art_new)` updates.
`fa_new = fa_old_s or _norm_s(losname)`;
`art_new = _strip_before_backslash(art_old_s or _norm_s(leiterplatte))`
where `art_old_s = _strip_before_backslash(_norm_s(art_old))`. -/
def applyFaGo (rc : List (Nat × List String))
    (lookup : List (String × String × String)) (failOn : Nat → Bool) :
    List FaRow → List (Nat × String × String) → Nat →
    Except Unit (List (Nat × String × String) × Nat)
  | [], ws, upd => .ok (ws, upd)
  | r :: rest, ws, upd =>
    let cands := (dictGet? rc r.id).getD []
    match firstSome lookup cands with
    | none => applyFaGo rc lookup failOn rest ws upd
    | some info =>
      let faOldS := normSO r.fa
      let artOldS := stripBeforeBackslash (normSO r.art)
      let faNew := if faOldS = "" then pyStrip info.1 else faOldS
      let artCand := if artOldS = "" then pyStrip info.2 else artOldS
      let artNew := stripBeforeBackslash artCand
      if faNew = "" && artNew = "" then applyFaGo rc lookup failOn rest ws upd
      else if failOn r.id then .error ()
      else applyFaGo rc lookup failOn rest (ws ++ [(r.id, faNew, artNew)]) (upd + 1)

/-- Effect of one buffered `UPDATE circuit_boards SET board_fa_nummer=%s,
board_artikel_nummer=%s WHERE id=%s` on one row. -/
def rowStepFa (r : FaRow) (w : Nat × String × String) : FaRow :=
  if r.id = w.1 then { r with fa := some w.2.1, art := some w.2.2 } else r

/-- One buffered FA/article update applied to the whole table. -/
def applyWriteFa (db : List FaRow) (w : Nat × String × String) : List FaRow :=
  db.map (fun r => rowStepFa r w)

/-- `mysql_conn.commit()` for the FA/article pass. -/
def commitWritesFa (db : List FaRow) (ws : List (Nat × String × String)) : List FaRow :=
  ws.foldl applyWriteFa db

/-- Outcome of one `DoubloeCheckFaNumbers.main` pass. -/
structure FaPassResult where
  db : List FaRow
  exitSt : RunExit
  updated : Nat
  skippedNoBarcode : Nat
deriving Repr

/-- Step 2 of `DoubloeCheckFaNumbers.main` over the selected rows. -/
def doubloeCollected (db : List FaRow) : Collected :=
  collectCandidates ((selectFaRows db).map (fun r => (r.id, r.top, r.bottom)))

/-- Step 3 of `DoubloeCheckFaNumbers.main`: the shared lookup map. -/
def doubloeLookup (store : List String → List (String × Option String × Option String))
    (chunkSize : Nat) (db : List FaRow) : List (String × String × String) :=
  fetchTraceInfo store (doubloeCollected db).barcodes chunkSize

/-- Step 4 of `DoubloeCheckFaNumbers.main`: the buffered writes or the
raised error. -/
def doubloeWriteAttempt (store : List String → List (String × Option String × Option String))
    (chunkSize : Nat) (failOn : Nat → Bool) (db : List FaRow) :
    Except Unit (List (Nat × String × String) × Nat) :=
  applyFaGo (doubloeCollected db).rowCandidates (doubloeLookup store chunkSize db)
    failOn (selectFaRows db) [] 0

/-- One pass of `DoubloeCheckFaNumbers.main` (lines 280-413): load, collect,
resolve, buffer the updates, commit — or roll back and `sys.exit(3)`. -/
def doubloePass (store : List String → List (String × Option String × Option String))
    (chunkSize : Nat) (failOn : Nat → Bool) (db : List FaRow) : FaPassResult :=
  if selectFaRows db = [] then ⟨db, .normal, 0, 0⟩
  else if (doubloeCollected db).barcodes = [] then
    ⟨db, .normal, 0, (doubloeCollected db).skippedNoBarcode⟩
  else
    match doubloeWriteAttempt store chunkSize failOn db with
    | .error _ => ⟨db, .exitCode 3, 0, (doubloeCollected db).skippedNoBarcode⟩
    | .ok (ws, upd) =>
      ⟨commitWritesFa db ws, .normal, upd, (doubloeCollected db).skippedNoBarcode⟩

/-- `normalize_board_number(val)` of `UploadDatabase.py` (lines 188-217)
restricted to a string-or-missing cell: `NaN`/`None` and blank strings
normalize to `None` (excluded from uniqueness checks), other strings are
stripped. -/
def normalizeBoardNumber (v : Option String) : Option String :=
  match v with
  | none => none
  | some s => if pyStrip s = "" then none else some (pyStrip s)

/-- Occurrences of `n` in the normalized, non-`NaN` `board_top` column
(`top_counts` of `build_offending_numbers_df`). -/
def topCount (rows : List (Option String × Option String)) (n : String) : Nat :=
  (rows.filterMap (fun r => normalizeBoardNumber r.1)).count n

/-- Occurrences of `n` in the normalized, non-`NaN` `board_bottom` column. -/
def bottomCount (rows : List (Option String × Option String)) (n : String) : Nat :=
  (rows.filterMap (fun r => normalizeBoardNumber r.2)).count n

/-- Occurrences of `n` in the concatenation of both normalized columns
(`combined_counts`); a value is "bad" when this exceeds 1. -/
def combinedCount (rows : List (Option String × Option String)) (n : String) : Nat :=
  ((rows.filterMap (fun r => normalizeBoardNumber r.1)) ++
   (rows.filterMap (fun r => normalizeBoardNumber r.2))).count n

/-- The `reasons` list built by `build_offending_numbers_df`
(`UploadDatabase.py` lines 323-329): `tc > 1`, `bc > 1`, and membership in
both columns' value sets. -/
def reasonsFor (rows : List (Option String × Option String)) (n : String) : List String :=
  (if topCount rows n > 1 then ["duplicate_in_board_top"] else []) ++
  (if bottomCount rows n > 1 then ["duplicate_in_board_bottom"] else []) ++
  (if topCount rows n ≥ 1 && bottomCount rows n ≥ 1 then ["appears_in_both_columns"] else [])

/-- `";".join(reasons) if reasons else "duplicate_across_union"`
(`UploadDatabase.py` line 339). -/
def reasonString (rows : List (Option String × Option String)) (n : String) : String :=
  let rs := reasonsFor rows n
  if rs = [] then "duplicate_across_union" else String.intercalate ";" rs

/-- The SQL `CASE` classification of `ScanForDuplicates.py` (lines 78-86)
from the per-column tallies of a duplicated number. -/
def scanReason (tc bc : Nat) : String :=
  if tc > 1 && bc > 1 then "duplicate_in_board_top;duplicate_in_board_bottom;appears_in_both_columns"
  else if tc > 1 && bc > 0 then "duplicate_in_board_top;appears_in_both_columns"
  else if bc > 1 && tc > 0 then "duplicate_in_board_bottom;appears_in_both_columns"
  else if tc > 1 then "duplicate_in_board_top"
  else if bc > 1 then "duplicate_in_board_bottom"
  else if tc > 0 && bc > 0 then "appears_in_both_columns"
  else "duplicate_across_union"

/-- The update one iteration of step 4 of `AssembledOnBackfill.main`
buffers for a row (`none` when the row is skipped): the defensive skip for
a non-blank stored value, else the first resolving candidate's timestamp,
defaulting to the 1900-01-01 sentinel. -/
def writeOf (rc : List (Nat × List String)) (lookup : List (String × Option PyDateTime))
    (r : BoardRow) : Option (Nat × PyDateTime) :=
  if cellNormEmpty r.assembledOn = false then none
  else some (r.id, (firstHit lookup ((dictGet? rc r.id).getD [])).getD DEFAULT_ASSEMBLY_DATE)

/-- The update one iteration of step 4 of `DoubloeCheckFaNumbers.main`
buffers for a row (`none` when the row is skipped as not found, or when
both merged values come out empty). -/
def writeOfFa (rc : List (Nat × List String)) (lookup : List (String × String × String))
    (r : FaRow) : Option (Nat × String × String) :=
  match firstSome lookup ((dictGet? rc r.id).getD []) with
  | none => none
  | some info =>
    let faOldS := normSO r.fa
    let artOldS := stripBeforeBackslash (normSO r.art)
    let faNew := if faOldS = "" then pyStrip info.1 else faOldS
    let artCand := if artOldS = "" then pyStrip info.2 else artOldS
    let artNew := stripBeforeBackslash artCand
    if faNew = "" && artNew = "" then none else some (r.id, faNew, artNew)

/-- Exit status of the whole process. -/
inductive ProcExit where
  | normal
  | code (n : Nat)
deriving DecidableEq, Repr

/-- The connection phase of both backfill `main`s (`AssembledOnBackfill.py`
lines 235-236, `DoubloeCheckFaNumbers.py` lines 286-287), which runs before
the `try` block, under Python process semantics: `get_trace_connection`
raises on failure (missing env or `pyodbc` error) and nothing catches it,
so the interpreter exits with code 1; `get_mysql_connection` catches its
failure and calls `sys.exit(2)`.  `rest` abstracts the remainder of a
successful `main`. -/
def connectionPhaseExit (traceConnectOk mysqlConnectOk : Bool) (rest : ProcExit) : ProcExit :=
  if traceConnectOk = false then ProcExit.code 1
  else if mysqlConnectOk = false then ProcExit.code 2
  else rest

theorem pyStripChars_nil_of_all_space {l : List Char}
    (h : ∀ c ∈ l, c = ' ') : pyStripChars l = [] := by
  have hd : l.dropWhile isPySpace = [] := by
    rw [List.dropWhile_eq_nil_iff]
    intro c hc
    rw [h c hc]
    rfl
  simp [pyStripChars, hd]

theorem all_space_of_mysqlTrimChars_nil {l : List Char}
    (h : mysqlTrimChars l = []) : ∀ c ∈ l, c = ' ' := by
  unfold mysqlTrimChars at h
  rw [List.reverse_eq_nil_iff, List.dropWhile_eq_nil_iff] at h
  intro c hc
  rcases (List.takeWhile_append_dropWhile (p := fun x => decide (x = ' ')) (l := l)) ▸ hc
      |> List.mem_append.mp with hl | hr
  · have := List.mem_takeWhile_imp hl
    simpa using this
  · have := h c (by simpa using hr)
    simpa using this

theorem pyStrip_empty_of_mysqlTrim_empty {s : String}
    (h : mysqlTrim s = "") : pyStrip s = "" := by
  unfold mysqlTrim at h
  unfold pyStrip
  have hl : mysqlTrimChars s.data = [] := by
    have := congrArg String.data h
    simpa using this
  have := pyStripChars_nil_of_all_space (all_space_of_mysqlTrimChars_nil hl)
  simp [this]

theorem cellNormEmpty_of_cellTrimEmpty {c : DbCell}
    (h : cellTrimEmpty c = true) : cellNormEmpty c = true := by
  cases c with
  | null => rfl
  | str s =>
    simp only [cellTrimEmpty, decide_eq_true_eq] at h
    simp only [cellNormEmpty, decide_eq_true_eq]
    exact pyStrip_empty_of_mysqlTrim_empty h
  | dt d => simp [cellTrimEmpty] at h

/-- C4: candidate generation.  An input whose clean form is empty yields no
candidate; one whose clean form is non-empty, purely numeric and not
already `CM`-prefixed yields exactly `[b, "CM" ++ b]` in that order; one
whose clean form already starts with the prefix yields exactly the
one-element list of its clean form. -/
theorem barcode_candidates_spec (v : Option String) :
    (cleanBarcode v = "" → barcodeCandidates v = []) ∧
    (cleanBarcode v ≠ "" → isDigitStr (cleanBarcode v) = true →
      startsWithCM (cleanBarcode v) = false →
      barcodeCandidates v = [cleanBarcode v, "CM" ++ cleanBarcode v]) ∧
    (startsWithCM (cleanBarcode v) = true →
      barcodeCandidates v = [cleanBarcode v]) := by
  refine ⟨?_, ?_, ?_⟩
  · intro h
    simp [barcodeCandidates, h]
  · intro h1 h2 h3
    simp [barcodeCandidates, h1, h2, h3]
  · intro h
    have hne : ¬ cleanBarcode v = "" := by
      intro he
      rw [he] at h
      simp [startsWithCM] at h
    simp [barcodeCandidates, hne, h]

/-- Witness for C4 at the spec's own examples: `" 123 "` cleans to the
numeric `"123"` and yields both forms in order; `" cm123 "` cleans to the
prefixed `"CM123"` and yields only it; a blank input yields nothing. -/
theorem barcode_candidates_spec_eval :
    barcodeCandidates (some "   ") = [] ∧
    barcodeCandidates (some " 123 ") = ["123", "CM123"] ∧
    barcodeCandidates (some " cm123 ") = ["CM123"] := by
  refine ⟨(barcode_candidates_spec (some "   ")).1 (by decide), ?_, ?_⟩
  · have h := (barcode_candidates_spec (some " 123 ")).2.1 (by decide) (by decide) (by decide)
    rw [h]
    decide
  · have h := (barcode_candidates_spec (some " cm123 ")).2.2 (by decide)
    rw [h]
    decide

/-- C5: date-parsing precedence.  For any string whose stripped form the
month-first chain parses — in particular any date that is plausible under
both readings, i.e. whose parsed day would also be a valid month —
`coerce_datetime` returns exactly the month-first parse, whatever the
day-first chain or the pandas fallbacks would say (the oracles `o1`, `o2`
are arbitrary). -/
theorem coerce_month_first (s : String) (o1 o2 : String → Option PyDateTime)
    (d : PyDateTime)
    (hmdy : tryFormats mdyFormats (pyStrip s) = some d)
    (_hplaus : d.day ≤ 12) :
    coerceDatetimeStr s o1 o2 = some d := by
  have hnil : tryFormats mdyFormats "" = none := by decide
  have hne : ¬ pyStrip s = "" := by
    intro he
    rw [he, hnil] at hmdy
    exact Option.noConfusion hmdy
  unfold coerceDatetimeStr
  rw [if_neg hne]
  simp only [hmdy]

/-- Witness for C5 at the spec's example: `"03/04/2025"` parses with
month 3 and day 4 (month-first wins), and day 4 is also a plausible month. -/
theorem coerce_month_first_eval :
    coerceDatetimeStr "03/04/2025" (fun _ => none) (fun _ => none) =
      some ⟨2025, 3, 4, 0, 0, 0⟩ :=
  coerce_month_first "03/04/2025" (fun _ => none) (fun _ => none)
    ⟨2025, 3, 4, 0, 0, 0⟩ (by decide) (by decide)

/-- C9 counterexample: a failure to connect to the traceability store is
raised out of `get_trace_connection` before the `try` block and nothing
catches it, so the process exits with the interpreter's code 1 — not with
code 2 as the claim states for "either store". -/
theorem trace_connection_failure_not_exit_2 :
    connectionPhaseExit false true ProcExit.normal = ProcExit.code 1 ∧
    connectionPhaseExit false true ProcExit.normal ≠ ProcExit.code 2 := by
  decide

/-- C9 (amended): a failure to connect to the operational MySQL store
exits the process with code 2; a failure to connect to the traceability
store raises an uncaught exception, so the process exits with the Python
interpreter's code 1. -/
theorem connection_failure_exit_codes :
    (∀ rest : ProcExit, connectionPhaseExit true false rest = ProcExit.code 2) ∧
    (∀ (mysqlOk : Bool) (rest : ProcExit), connectionPhaseExit false mysqlOk rest = ProcExit.code 1) := by
  exact ⟨fun _ => rfl, fun _ _ => rfl⟩

theorem combinedCount_eq (rows : List (Option String × Option String)) (n : String) :
    combinedCount rows n = topCount rows n + bottomCount rows n := by
  unfold combinedCount topCount bottomCount
  exact List.count_append n _ _

/-- C7: duplicate classification.  When a value occurs exactly twice in the
top column and once in the bottom column, it is a violation (union count 3)
whose classification lists exactly "duplicate_in_board_top" and
"appears_in_both_columns"; the SQL scanner's `CASE` produces the same
combined label for tallies (2, 1). -/
theorem duplicate_top_and_both_columns (rows : List (Option String × Option String))
    (n : String) (h2 : topCount rows n = 2) (h1 : bottomCount rows n = 1) :
    combinedCount rows n > 1 ∧
    reasonsFor rows n = ["duplicate_in_board_top", "appears_in_both_columns"] ∧
    reasonString rows n = "duplicate_in_board_top;appears_in_both_columns" ∧
    scanReason 2 1 = "duplicate_in_board_top;appears_in_both_columns" := by
  have hc : combinedCount rows n = 3 := by
    rw [combinedCount_eq, h2, h1]
  have hr : reasonsFor rows n = ["duplicate_in_board_top", "appears_in_both_columns"] := by
    simp [reasonsFor, h2, h1]
  refine ⟨by omega, hr, ?_, by decide⟩
  rw [reasonString, hr]
  decide

/-- Witness for C7: in `[("X","X"), ("X", –)]` the value `"X"` has top
count 2 and bottom count 1, and is classified with both labels. -/
theorem duplicate_top_and_both_columns_eval :
    combinedCount [(some "X", some "X"), (some "X", none)] "X" > 1 ∧
    reasonsFor [(some "X", some "X"), (some "X", none)] "X" =
      ["duplicate_in_board_top", "appears_in_both_columns"] ∧
    reasonString [(some "X", some "X"), (some "X", none)] "X" =
      "duplicate_in_board_top;appears_in_both_columns" ∧
    scanReason 2 1 = "duplicate_in_board_top;appears_in_both_columns" :=
  duplicate_top_and_both_columns [(some "X", some "X"), (some "X", none)] "X"
    (by decide) (by decide)

/-- C8: the defensive catch-all is unreachable.  Any value whose count over
the union of both columns exceeds 1 satisfies a specific condition
(duplicate in top, duplicate in bottom, or present in both), so the
produced classification is never "duplicate_across_union"; likewise for
the SQL scanner's `CASE` over any tallies with `tc + bc > 1`. -/
theorem catch_all_unreachable (rows : List (Option String × Option String))
    (n : String) (h : combinedCount rows n > 1) :
    (topCount rows n > 1 ∨ bottomCount rows n > 1 ∨
      (topCount rows n ≥ 1 ∧ bottomCount rows n ≥ 1)) ∧
    reasonsFor rows n ≠ [] ∧
    reasonString rows n ≠ "duplicate_across_union" ∧
    (∀ tc bc : Nat, tc + bc > 1 → scanReason tc bc ≠ "duplicate_across_union") := by
  have hcb := combinedCount_eq rows n
  have hd : topCount rows n > 1 ∨ bottomCount rows n > 1 ∨
      (topCount rows n ≥ 1 ∧ bottomCount rows n ≥ 1) := by omega
  have hscan : ∀ tc bc : Nat, tc + bc > 1 → scanReason tc bc ≠ "duplicate_across_union" := by
    intro tc bc hs
    by_cases h1 : tc > 1 <;> by_cases h2 : bc > 1 <;>
      by_cases h3 : tc > 0 <;> by_cases h4 : bc > 0 <;>
      simp [scanReason, h1, h2, h3, h4] <;> first | decide | omega
  have hre : reasonsFor rows n ≠ [] ∧ reasonString rows n ≠ "duplicate_across_union" := by
    by_cases h1 : topCount rows n > 1 <;> by_cases h2 : bottomCount rows n > 1 <;>
      by_cases h3 : topCount rows n ≥ 1 <;> by_cases h4 : bottomCount rows n ≥ 1 <;>
      simp [reasonsFor, reasonString, h1, h2, h3, h4] <;> first | decide | omega
  exact ⟨hd, hre.1, hre.2, hscan⟩

/-- Witness for C8: the value `"X"` with two top occurrences has union
count 2 and is classified by a specific reason, not the catch-all. -/
theorem catch_all_unreachable_eval :
    reasonsFor [(some "X", none), (some "X", none)] "X" ≠ [] ∧
    reasonString [(some "X", none), (some "X", none)] "X" ≠ "duplicate_across_union" := by
  have h := catch_all_unreachable [(some "X", none), (some "X", none)] "X" (by decide)
  exact ⟨h.2.1, h.2.2.1⟩

theorem dictGet?_nil {α β : Type} [DecidableEq α] (k : α) :
    dictGet? ([] : List (α × β)) k = none := rfl

theorem dictGet?_cons {α β : Type} [DecidableEq α] (k' : α) (v : β)
    (m : List (α × β)) (k : α) :
    dictGet? ((k', v) :: m) k = if k' = k then some v else dictGet? m k := by
  by_cases h : k' = k
  · simp [dictGet?, List.find?_cons, h]
  · simp [dictGet?, List.find?_cons, h]

theorem dictGet?_eq_none_iff {α β : Type} [DecidableEq α] (m : List (α × β)) (k : α) :
    dictGet? m k = none ↔ ∀ p ∈ m, p.1 ≠ k := by
  simp [dictGet?, List.find?_eq_none]

theorem dictGet?_of_nodup_mem {α β : Type} [DecidableEq α] {m : List (α × β)}
    {k : α} {v : β} (hnd : (m.map (fun p => p.1)).Nodup) (h : (k, v) ∈ m) :
    dictGet? m k = some v := by
  induction m with
  | nil => cases h
  | cons p rest ih =>
    rcases List.mem_cons.mp h with he | ht
    · rw [← he]
      simp [dictGet?, List.find?_cons]
    · have hk : k ∈ rest.map (fun p => p.1) :=
        List.mem_map.mpr ⟨(k, v), ht, rfl⟩
      have hp1 : p.1 ≠ k := by
        intro he
        rw [List.map_cons, List.nodup_cons] at hnd
        exact hnd.1 (he ▸ hk)
      rcases p with ⟨a, b⟩
      rw [dictGet?_cons, if_neg hp1]
      exact ih (by rw [List.map_cons, List.nodup_cons] at hnd; exact hnd.2) ht

theorem filterMap_if_eq_filter_map {α β : Type} (p : α → Bool) (f : α → β) (l : List α) :
    l.filterMap (fun a => if p a then some (f a) else none) =
      (l.filter p).map f := by
  induction l with
  | nil => rfl
  | cons a rest ih =>
    by_cases h : p a
    · simp [List.filterMap_cons, List.filter_cons, h, ih]
    · simp [List.filterMap_cons, List.filter_cons, h, ih]

theorem collect_foldl (rows : List (Nat × Option String × Option String)) :
    ∀ acc : Collected,
      rows.foldl collectStep acc =
        ⟨acc.rowCandidates ++ rows.filterMap (fun r =>
            if effCandsOf r.2.1 r.2.2 = [] then none else some (r.1, effCandsOf r.2.1 r.2.2)),
         acc.barcodes ++ (rows.map (fun r => effCandsOf r.2.1 r.2.2)).flatten,
         acc.skippedNoBarcode + (rows.filter (fun r => effCandsOf r.2.1 r.2.2 = [])).length⟩ := by
  induction rows with
  | nil => intro acc; simp
  | cons r rest ih =>
    intro acc
    by_cases h : effCandsOf r.2.1 r.2.2 = []
    · rw [List.foldl_cons]
      rw [show collectStep acc r = { acc with skippedNoBarcode := acc.skippedNoBarcode + 1 } by
        simp [collectStep, h]]
      rw [ih]
      simp [List.filterMap_cons, List.filter_cons, h]
      omega
    · rw [List.foldl_cons]
      rw [show collectStep acc r =
          { acc with rowCandidates := acc.rowCandidates ++ [(r.1, effCandsOf r.2.1 r.2.2)],
                     barcodes := acc.barcodes ++ effCandsOf r.2.1 r.2.2 } by
        simp [collectStep, h]]
      rw [ih]
      simp [List.filterMap_cons, List.filter_cons, h]

theorem collect_rowCandidates (rows : List (Nat × Option String × Option String)) :
    (collectCandidates rows).rowCandidates =
      rows.filterMap (fun r =>
        if effCandsOf r.2.1 r.2.2 = [] then none else some (r.1, effCandsOf r.2.1 r.2.2)) := by
  unfold collectCandidates
  rw [collect_foldl]
  simp

theorem collect_barcodes (rows : List (Nat × Option String × Option String)) :
    (collectCandidates rows).barcodes =
      (rows.map (fun r => effCandsOf r.2.1 r.2.2)).flatten := by
  unfold collectCandidates
  rw [collect_foldl]
  simp

theorem collect_skipped (rows : List (Nat × Option String × Option String)) :
    (collectCandidates rows).skippedNoBarcode =
      (rows.filter (fun r => effCandsOf r.2.1 r.2.2 = [])).length := by
  unfold collectCandidates
  rw [collect_foldl]
  simp

theorem firstHit_none {lookup : List (String × Option PyDateTime)}
    {cands : List String}
    (h : ∀ c ∈ cands, dictGet? lookup c = none) :
    firstHit lookup cands = none := by
  induction cands with
  | nil => rfl
  | cons c rest ih =>
    have hc := h c (List.mem_cons_self c rest)
    rw [firstHit, hc]
    exact ih (fun x hx => h x (List.mem_cons_of_mem c hx))

theorem applyUpdatesGo_noFail (rc : List (Nat × List String))
    (lookup : List (String × Option PyDateTime)) :
    ∀ (rows : List BoardRow) (ws : List (Nat × PyDateTime)) (upd : Nat),
      applyUpdatesGo rc lookup (fun _ => false) rows ws upd =
        .ok (ws ++ rows.filterMap (writeOf rc lookup),
             upd + (rows.filterMap (writeOf rc lookup)).length) := by
  intro rows
  induction rows with
  | nil => intro ws upd; simp [applyUpdatesGo]
  | cons r rest ih =>
    intro ws upd
    by_cases hn : cellNormEmpty r.assembledOn = false
    · rw [applyUpdatesGo, if_pos hn, ih]
      simp [List.filterMap_cons, writeOf, hn]
    · rw [applyUpdatesGo, if_neg hn]
      cases hh : firstHit lookup ((dictGet? rc r.id).getD []) with
      | none =>
        simp only [hh, ih]
        have hw : writeOf rc lookup r = some (r.id, DEFAULT_ASSEMBLY_DATE) := by
          simp [writeOf, hn, hh]
        simp [List.filterMap_cons, hw]
        omega
      | some d =>
        simp only [hh, ih]
        have hw : writeOf rc lookup r = some (r.id, d) := by
          simp [writeOf, hn, hh]
        simp [List.filterMap_cons, hw]
        omega

theorem applyUpdatesGo_ok_writes (rc : List (Nat × List String))
    (lookup : List (String × Option PyDateTime)) (failOn : Nat → Bool) :
    ∀ (rows : List BoardRow) (ws ws' : List (Nat × PyDateTime)) (upd upd' : Nat),
      applyUpdatesGo rc lookup failOn rows ws upd = .ok (ws', upd') →
      ws' = ws ++ rows.filterMap (writeOf rc lookup) := by
  intro rows
  induction rows with
  | nil =>
    intro ws ws' upd upd' h
    simp [applyUpdatesGo] at h
    simp [h.1]
  | cons r rest ih =>
    intro ws ws' upd upd' h
    by_cases hn : cellNormEmpty r.assembledOn = false
    · rw [applyUpdatesGo, if_pos hn] at h
      have := ih ws ws' upd upd' h
      simp [List.filterMap_cons, writeOf, hn, this]
    · rw [applyUpdatesGo, if_neg hn] at h
      cases hh : firstHit lookup ((dictGet? rc r.id).getD []) with
      | none =>
        simp only [hh] at h
        by_cases hf : failOn r.id = true
        · simp [hf] at h
        · rw [if_neg hf] at h
          have := ih (ws ++ [(r.id, DEFAULT_ASSEMBLY_DATE)]) ws' (upd + 1) upd' h
          have hw : writeOf rc lookup r = some (r.id, DEFAULT_ASSEMBLY_DATE) := by
            simp [writeOf, hn, hh]
          simp [List.filterMap_cons, hw, this]
      | some d =>
        simp only [hh] at h
        by_cases hf : failOn r.id = true
        · simp [hf] at h
        · rw [if_neg hf] at h
          have := ih (ws ++ [(r.id, d)]) ws' (upd + 1) upd' h
          have hw : writeOf rc lookup r = some (r.id, d) := by
            simp [writeOf, hn, hh]
          simp [List.filterMap_cons, hw, this]

theorem commitWrites_map (ws : List (Nat × PyDateTime)) :
    ∀ db : List BoardRow,
      commitWrites db ws = db.map (fun r => ws.foldl rowStep r) := by
  induction ws with
  | nil => intro db; simp [commitWrites]
  | cons w rest ih =>
    intro db
    rw [commitWrites, List.foldl_cons]
    rw [show applyWrite db w = db.map (fun r => rowStep r w) from rfl]
    rw [show List.foldl applyWrite (db.map (fun r => rowStep r w)) rest =
        commitWrites (db.map (fun r => rowStep r w)) rest from rfl]
    rw [ih]
    rw [List.map_map]
    rfl

theorem rowStep_id (r : BoardRow) (w : Nat × PyDateTime) :
    (rowStep r w).id = r.id := by
  unfold rowStep
  split <;> rfl

theorem foldl_rowStep_id (r : BoardRow) :
    ∀ ws : List (Nat × PyDateTime),
      (h : ∀ w ∈ ws, w.1 ≠ r.id) → ws.foldl rowStep r = r := by
  intro ws
  induction ws with
  | nil => intro _; rfl
  | cons w rest ih =>
    intro h
    rw [List.foldl_cons]
    rw [show rowStep r w = r from by
      unfold rowStep
      rw [if_neg (fun he => h w (List.mem_cons_self w rest) he.symm)]]
    exact ih (fun x hx => h x (List.mem_cons_of_mem w hx))

theorem writeOf_fst {rc : List (Nat × List String)}
    {lookup : List (String × Option PyDateTime)} {r : BoardRow}
    {w : Nat × PyDateTime} (h : writeOf rc lookup r = some w) : w.1 = r.id := by
  unfold writeOf at h
  split at h
  · exact Option.noConfusion h
  · cases h
    rfl

theorem foldl_rowStep_filterMap
    (rc : List (Nat × List String)) (lookup : List (String × Option PyDateTime))
    (rows : List BoardRow) (hnd : (rows.map (fun x => x.id)).Nodup)
    (r : BoardRow) (hr : r ∈ rows) :
    (rows.filterMap (writeOf rc lookup)).foldl rowStep r =
      (match writeOf rc lookup r with
       | none => r
       | some w => { r with assembledOn := DbCell.dt w.2 }) := by
  obtain ⟨l1, l2, rfl⟩ := List.append_of_mem hr
  have hm : (l1 ++ r :: l2).map (fun x => x.id) =
      l1.map (fun x => x.id) ++ r.id :: l2.map (fun x => x.id) := by simp
  rw [hm] at hnd
  have hnotl1 : r.id ∉ l1.map (fun x => x.id) := by
    intro hmem
    exact (List.disjoint_of_nodup_append hnd) hmem (List.mem_cons_self _ _)
  have hnotl2 : r.id ∉ l2.map (fun x => x.id) := by
    have := (List.nodup_append.mp hnd).2.1
    rw [List.nodup_cons] at this
    exact this.1
  have hne1 : ∀ w ∈ l1.filterMap (writeOf rc lookup), w.1 ≠ r.id := by
    intro w hw
    obtain ⟨x, hx, hxw⟩ := List.mem_filterMap.mp hw
    rw [writeOf_fst hxw]
    intro he
    exact hnotl1 (he ▸ List.mem_map.mpr ⟨x, hx, rfl⟩)
  have hne2 : ∀ w ∈ l2.filterMap (writeOf rc lookup), w.1 ≠ r.id := by
    intro w hw
    obtain ⟨x, hx, hxw⟩ := List.mem_filterMap.mp hw
    rw [writeOf_fst hxw]
    intro he
    exact hnotl2 (he ▸ List.mem_map.mpr ⟨x, hx, rfl⟩)
  rw [List.filterMap_append, List.foldl_append]
  rw [foldl_rowStep_id r _ hne1]
  cases hw : writeOf rc lookup r with
  | none =>
    rw [List.filterMap_cons, hw]
    exact foldl_rowStep_id r _ hne2
  | some w =>
    rw [List.filterMap_cons, hw, List.foldl_cons]
    have hs : rowStep r w = { r with assembledOn := DbCell.dt w.2 } := by
      unfold rowStep
      rw [if_pos (writeOf_fst hw).symm]
    rw [hs]
    exact foldl_rowStep_id _ _ (by
      intro x hx
      have := hne2 x hx
      simpa using this)

theorem applyFaGo_ok_writes (rc : List (Nat × List String))
    (lookup : List (String × String × String)) (failOn : Nat → Bool) :
    ∀ (rows : List FaRow) (ws ws' : List (Nat × String × String)) (upd upd' : Nat),
      applyFaGo rc lookup failOn rows ws upd = .ok (ws', upd') →
      ws' = ws ++ rows.filterMap (writeOfFa rc lookup) := by
  intro rows
  induction rows with
  | nil =>
    intro ws ws' upd upd' h
    simp [applyFaGo] at h
    simp [h.1]
  | cons r rest ih =>
    intro ws ws' upd upd' h
    rw [applyFaGo] at h
    cases hh : firstSome lookup ((dictGet? rc r.id).getD []) with
    | none =>
      simp only [hh] at h
      have := ih ws ws' upd upd' h
      have hw : writeOfFa rc lookup r = none := by
        simp [writeOfFa, hh]
      simp [List.filterMap_cons, hw, this]
    | some info =>
      simp only [hh] at h
      by_cases hz : ((if normSO r.fa = "" then pyStrip info.1 else normSO r.fa) = "" &&
          (stripBeforeBackslash (if stripBeforeBackslash (normSO r.art) = ""
            then pyStrip info.2 else stripBeforeBackslash (normSO r.art))) = "") = true
      · rw [if_pos hz] at h
        have := ih ws ws' upd upd' h
        have hw : writeOfFa rc lookup r = none := by
          simp only [writeOfFa, hh]
          rw [if_pos hz]
        simp [List.filterMap_cons, hw, this]
      · rw [if_neg hz] at h
        by_cases hf : failOn r.id = true
        · simp [hf] at h
        · rw [if_neg hf] at h
          have := ih _ ws' (upd + 1) upd' h
          have hw : writeOfFa rc lookup r =
              some (r.id, (if normSO r.fa = "" then pyStrip info.1 else normSO r.fa),
                stripBeforeBackslash (if stripBeforeBackslash (normSO r.art) = ""
                  then pyStrip info.2 else stripBeforeBackslash (normSO r.art))) := by
            simp only [writeOfFa, hh]
            rw [if_neg hz]
          simp [List.filterMap_cons, hw, this]

theorem commitWritesFa_map (ws : List (Nat × String × String)) :
    ∀ db : List FaRow,
      commitWritesFa db ws = db.map (fun r => ws.foldl rowStepFa r) := by
  induction ws with
  | nil => intro db; simp [commitWritesFa]
  | cons w rest ih =>
    intro db
    rw [commitWritesFa, List.foldl_cons]
    rw [show applyWriteFa db w = db.map (fun r => rowStepFa r w) from rfl]
    rw [show List.foldl applyWriteFa (db.map (fun r => rowStepFa r w)) rest =
        commitWritesFa (db.map (fun r => rowStepFa r w)) rest from rfl]
    rw [ih]
    rw [List.map_map]
    rfl

theorem foldl_rowStepFa_id (r : FaRow) :
    ∀ ws : List (Nat × String × String),
      (h : ∀ w ∈ ws, w.1 ≠ r.id) → ws.foldl rowStepFa r = r := by
  intro ws
  induction ws with
  | nil => intro _; rfl
  | cons w rest ih =>
    intro h
    rw [List.foldl_cons]
    rw [show rowStepFa r w = r from by
      unfold rowStepFa
      rw [if_neg (fun he => h w (List.mem_cons_self w rest) he.symm)]]
    exact ih (fun x hx => h x (List.mem_cons_of_mem w hx))

theorem writeOfFa_fst {rc : List (Nat × List String)}
    {lookup : List (String × String × String)} {r : FaRow}
    {w : Nat × String × String} (h : writeOfFa rc lookup r = some w) : w.1 = r.id := by
  unfold writeOfFa at h
  cases hh : firstSome lookup ((dictGet? rc r.id).getD []) with
  | none =>
    simp only [hh] at h
    exact Option.noConfusion h
  | some info =>
    simp only [hh] at h
    by_cases hz : ((if normSO r.fa = "" then pyStrip info.1 else normSO r.fa) = "" &&
        (stripBeforeBackslash (if stripBeforeBackslash (normSO r.art) = ""
          then pyStrip info.2 else stripBeforeBackslash (normSO r.art))) = "") = true
    · rw [if_pos hz] at h
      exact Option.noConfusion h
    · rw [if_neg hz] at h
      have := Option.some.inj h
      rw [← this]

theorem foldl_rowStepFa_filterMap
    (rc : List (Nat × List String)) (lookup : List (String × String × String))
    (rows : List FaRow) (hnd : (rows.map (fun x => x.id)).Nodup)
    (r : FaRow) (hr : r ∈ rows) :
    (rows.filterMap (writeOfFa rc lookup)).foldl rowStepFa r =
      (match writeOfFa rc lookup r with
       | none => r
       | some w => { r with fa := some w.2.1, art := some w.2.2 }) := by
  obtain ⟨l1, l2, rfl⟩ := List.append_of_mem hr
  have hm : (l1 ++ r :: l2).map (fun x => x.id) =
      l1.map (fun x => x.id) ++ r.id :: l2.map (fun x => x.id) := by simp
  rw [hm] at hnd
  have hnotl1 : r.id ∉ l1.map (fun x => x.id) := by
    intro hmem
    exact (List.disjoint_of_nodup_append hnd) hmem (List.mem_cons_self _ _)
  have hnotl2 : r.id ∉ l2.map (fun x => x.id) := by
    have := (List.nodup_append.mp hnd).2.1
    rw [List.nodup_cons] at this
    exact this.1
  have hne1 : ∀ w ∈ l1.filterMap (writeOfFa rc lookup), w.1 ≠ r.id := by
    intro w hw
    obtain ⟨x, hx, hxw⟩ := List.mem_filterMap.mp hw
    rw [writeOfFa_fst hxw]
    intro he
    exact hnotl1 (he ▸ List.mem_map.mpr ⟨x, hx, rfl⟩)
  have hne2 : ∀ w ∈ l2.filterMap (writeOfFa rc lookup), w.1 ≠ r.id := by
    intro w hw
    obtain ⟨x, hx, hxw⟩ := List.mem_filterMap.mp hw
    rw [writeOfFa_fst hxw]
    intro he
    exact hnotl2 (he ▸ List.mem_map.mpr ⟨x, hx, rfl⟩)
  rw [List.filterMap_append, List.foldl_append]
  rw [foldl_rowStepFa_id r _ hne1]
  cases hw : writeOfFa rc lookup r with
  | none =>
    rw [List.filterMap_cons, hw]
    exact foldl_rowStepFa_id r _ hne2
  | some w =>
    rw [List.filterMap_cons, hw, List.foldl_cons]
    have hs : rowStepFa r w = { r with fa := some w.2.1, art := some w.2.2 } := by
      unfold rowStepFa
      rw [if_pos (writeOfFa_fst hw).symm]
    rw [hs]
    exact foldl_rowStepFa_id _ _ (by
      intro x hx
      have := hne2 x hx
      simpa using this)

/-- C2: transactional atomicity of the write-back phase.  In either
backfill pass, if the buffered row writes raise at any point, the pass
rolls back: the committed store equals its state before the pass. -/
theorem write_back_atomic :
    (∀ (store : List String → List (String × Option PyDateTime)) (n : Nat)
       (failOn : Nat → Bool) (db : List BoardRow),
       backfillWriteAttempt store n failOn db = .error () →
       (backfillPass store n failOn db).db = db) ∧
    (∀ (store : List String → List (String × Option String × Option String)) (n : Nat)
       (failOn : Nat → Bool) (db : List FaRow),
       doubloeWriteAttempt store n failOn db = .error () →
       (doubloePass store n failOn db).db = db) := by
  constructor
  · intro store n failOn db h
    unfold backfillPass
    rw [h]
    split
    · rfl
    split
    · rfl
    rfl
  · intro store n failOn db h
    unfold doubloePass
    rw [h]
    split
    · rfl
    split
    · rfl
    rfl

/-- Witness for C2: with a lookup that resolves the one selected row and a
write that always raises, both passes end with the store exactly as it
was. -/
theorem write_back_atomic_eval :
    (backfillPass (fun _ => []) 200 (fun _ => true)
      [⟨1, some "XYZ", none, DbCell.null, none⟩]).db =
      [⟨1, some "XYZ", none, DbCell.null, none⟩] ∧
    (doubloePass (fun chunk => if "123" ∈ chunk then [("123", some "L", some "P")] else [])
      200 (fun _ => true) [⟨1, some "123", none, none, none, none⟩]).db =
      [⟨1, some "123", none, none, none, none⟩] :=
  ⟨write_back_atomic.1 (fun _ => []) 200 (fun _ => true)
      [⟨1, some "XYZ", none, DbCell.null, none⟩] (by rfl),
   write_back_atomic.2 (fun chunk => if "123" ∈ chunk then [("123", some "L", some "P")] else [])
      200 (fun _ => true) [⟨1, some "123", none, none, none, none⟩] (by rfl)⟩

theorem writeOfFa_values {rc : List (Nat × List String)}
    {lookup : List (String × String × String)} {r : FaRow}
    {w : Nat × String × String} (h : writeOfFa rc lookup r = some w) :
    (normSO r.fa ≠ "" → w.2.1 = normSO r.fa) ∧
    (stripBeforeBackslash (normSO r.art) ≠ "" →
      w.2.2 = stripBeforeBackslash (stripBeforeBackslash (normSO r.art))) := by
  unfold writeOfFa at h
  cases hh : firstSome lookup ((dictGet? rc r.id).getD []) with
  | none =>
    simp only [hh] at h
    exact Option.noConfusion h
  | some info =>
    simp only [hh] at h
    by_cases hz : ((if normSO r.fa = "" then pyStrip info.1 else normSO r.fa) = "" &&
        (stripBeforeBackslash (if stripBeforeBackslash (normSO r.art) = ""
          then pyStrip info.2 else stripBeforeBackslash (normSO r.art))) = "") = true
    · rw [if_pos hz] at h
      exact Option.noConfusion h
    · rw [if_neg hz] at h
      have hwv := Option.some.inj h
      constructor
      · intro hfa
        rw [← hwv]
        simp [hfa]
      · intro hart
        rw [← hwv]
        simp [hart]

/-- C1 counterexample: in the FA/article pass, a row whose
`board_artikel_nummer` already holds the non-empty value `"A\B"` (and
whose FA number is missing, so the row is selected) is rewritten: after
the pass the article field holds `"B"`, not its previous value. -/
theorem never_overwrite_counterexample :
    ((doubloePass (fun chunk => if "123" ∈ chunk then [("123", some "LOS1", some "X\\Y")] else [])
        200 (fun _ => false)
        [⟨1, some "123", none, none, some "A\\B", none⟩]).db.map (fun r => r.art)) =
      [some "B"] ∧
    ([⟨1, some "123", none, none, some "A\\B", none⟩] : List FaRow).map (fun r => r.art) =
      [some "A\\B"] ∧
    (some "B" : Option String) ≠ some "A\\B" := by
  refine ⟨by rfl, by rfl, by decide⟩

/-- C1 (amended): never-overwrite holds exactly for the assembled-at
field: a row whose stored `board_assembled_on` does not normalize to empty
is never touched by the assembled-at pass.  In the FA/article pass a
non-empty field is preserved only up to the normalization the script
applies before writing: the FA number may be replaced by its
whitespace-stripped form, and the article number — when it survives its
own backslash-stripping — may be replaced by `_strip_before_backslash`
applied twice to its stripped form (as the counterexample forces). -/
theorem never_overwrite_amended :
    (∀ (store : List String → List (String × Option PyDateTime)) (n : Nat)
       (failOn : Nat → Bool) (db : List BoardRow) (i : Nat) (r : BoardRow),
       (db.map (fun x => x.id)).Nodup →
       db[i]? = some r →
       cellNormEmpty r.assembledOn = false →
       (backfillPass store n failOn db).db[i]? = some r) ∧
    (∀ (store : List String → List (String × Option String × Option String)) (n : Nat)
       (failOn : Nat → Bool) (db : List FaRow) (i : Nat) (r : FaRow),
       (db.map (fun x => x.id)).Nodup →
       db[i]? = some r →
       ∃ r', (doubloePass store n failOn db).db[i]? = some r' ∧
         r'.id = r.id ∧ r'.top = r.top ∧ r'.bottom = r.bottom ∧
         (normSO r.fa ≠ "" → (r'.fa = r.fa ∨ r'.fa = some (normSO r.fa))) ∧
         (stripBeforeBackslash (normSO r.art) ≠ "" →
           (r'.art = r.art ∨
            r'.art = some (stripBeforeBackslash (stripBeforeBackslash (normSO r.art)))))) := by
  constructor
  · intro store n failOn db i r hnd hi hne
    unfold backfillPass
    split
    · exact hi
    split
    · exact hi
    cases hA : backfillWriteAttempt store n failOn db with
    | error e =>
      exact hi
    | ok p =>
      obtain ⟨ws, upd⟩ := p
      unfold backfillWriteAttempt at hA
      have hws := applyUpdatesGo_ok_writes _ _ failOn (selectBackfillRows db) [] ws 0 upd hA
      rw [List.nil_append] at hws
      show (commitWrites db ws)[i]? = some r
      rw [commitWrites_map, List.getElem?_map, hi]
      have hno : ∀ w ∈ ws, w.1 ≠ r.id := by
        intro w hw heq
        rw [hws] at hw
        obtain ⟨x, hx, hxw⟩ := List.mem_filterMap.mp hw
        have hxid : x.id = r.id := (writeOf_fst hxw) ▸ heq
        have hxr : x = r :=
          List.inj_on_of_nodup_map hnd (List.mem_of_mem_filter hx) (List.getElem?_mem hi) hxid
        rw [hxr] at hxw
        rw [show writeOf (backfillCollected db).rowCandidates
            (backfillLookup store n db) r = none from by simp [writeOf, hne]] at hxw
        exact Option.noConfusion hxw
      show some (List.foldl rowStep r ws) = some r
      rw [foldl_rowStep_id r ws hno]
  · intro store n failOn db i r hnd hi
    have hrdb : r ∈ db := List.getElem?_mem hi
    unfold doubloePass
    split
    · exact ⟨r, hi, rfl, rfl, rfl, fun _ => Or.inl rfl, fun _ => Or.inl rfl⟩
    split
    · exact ⟨r, hi, rfl, rfl, rfl, fun _ => Or.inl rfl, fun _ => Or.inl rfl⟩
    cases hA : doubloeWriteAttempt store n failOn db with
    | error e =>
      exact ⟨r, hi, rfl, rfl, rfl, fun _ => Or.inl rfl, fun _ => Or.inl rfl⟩
    | ok p =>
      obtain ⟨ws, upd⟩ := p
      unfold doubloeWriteAttempt at hA
      have hws := applyFaGo_ok_writes _ _ failOn (selectFaRows db) [] ws 0 upd hA
      rw [List.nil_append] at hws
      have hsel_nd : ((selectFaRows db).map (fun x => x.id)).Nodup :=
        List.Nodup.sublist (List.Sublist.map _ (List.filter_sublist db)) hnd
      by_cases hrsel : r ∈ selectFaRows db
      · have hfold := foldl_rowStepFa_filterMap
          (doubloeCollected db).rowCandidates (doubloeLookup store n db)
          (selectFaRows db) hsel_nd r hrsel
        cases hw : writeOfFa (doubloeCollected db).rowCandidates (doubloeLookup store n db) r with
        | none =>
          refine ⟨r, ?_, rfl, rfl, rfl, fun _ => Or.inl rfl, fun _ => Or.inl rfl⟩
          show (commitWritesFa db ws)[i]? = some r
          rw [commitWritesFa_map, List.getElem?_map, hi]
          show some (List.foldl rowStepFa r ws) = some r
          rw [hws, hfold, hw]
        | some w =>
          refine ⟨{ r with fa := some w.2.1, art := some w.2.2 }, ?_, rfl, rfl, rfl, ?_, ?_⟩
          · show (commitWritesFa db ws)[i]? = some _
            rw [commitWritesFa_map, List.getElem?_map, hi]
            show some (List.foldl rowStepFa r ws) = some _
            rw [hws, hfold, hw]
          · intro hfa
            right
            rw [(writeOfFa_values hw).1 hfa]
          · intro hart
            right
            rw [(writeOfFa_values hw).2 hart]
      · refine ⟨r, ?_, rfl, rfl, rfl, fun _ => Or.inl rfl, fun _ => Or.inl rfl⟩
        show (commitWritesFa db ws)[i]? = some r
        rw [commitWritesFa_map, List.getElem?_map, hi]
        show some (List.foldl rowStepFa r ws) = some r
        have hno : ∀ w ∈ ws, w.1 ≠ r.id := by
          intro w hw heq
          rw [hws] at hw
          obtain ⟨x, hx, hxw⟩ := List.mem_filterMap.mp hw
          have hxid : x.id = r.id := (writeOfFa_fst hxw) ▸ heq
          have hxr : x = r :=
            List.inj_on_of_nodup_map hnd (List.mem_of_mem_filter hx) hrdb hxid
          exact hrsel (hxr ▸ hx)
        rw [foldl_rowStepFa_id r ws hno]

/-- Witness for C1 (amended): a row with a stored assembly date is left
untouched by the assembled-at pass, and a row with non-empty FA and
article values keeps them (up to the stated normalization) in the
FA/article pass. -/
theorem never_overwrite_amended_eval :
    (backfillPass (fun _ => []) 200 (fun _ => false)
      [⟨1, some "123", none, DbCell.str "2024-05-05", none⟩]).db[0]? =
      some ⟨1, some "123", none, DbCell.str "2024-05-05", none⟩ ∧
    (∃ r', (doubloePass (fun _ => []) 200 (fun _ => false)
        [⟨1, some "7", none, some "FA1", some "ART1", none⟩]).db[0]? = some r' ∧
      r'.id = 1 ∧ r'.top = some "7" ∧ r'.bottom = none ∧
      (normSO (some "FA1") ≠ "" → (r'.fa = some "FA1" ∨ r'.fa = some (normSO (some "FA1")))) ∧
      (stripBeforeBackslash (normSO (some "ART1")) ≠ "" →
        (r'.art = some "ART1" ∨
         r'.art = some (stripBeforeBackslash (stripBeforeBackslash (normSO (some "ART1"))))))) :=
  ⟨never_overwrite_amended.1 (fun _ => []) 200 (fun _ => false)
      [⟨1, some "123", none, DbCell.str "2024-05-05", none⟩] 0
      ⟨1, some "123", none, DbCell.str "2024-05-05", none⟩ (by decide) rfl (by decide),
   never_overwrite_amended.2 (fun _ => []) 200 (fun _ => false)
      [⟨1, some "7", none, some "FA1", some "ART1", none⟩] 0
      ⟨1, some "7", none, some "FA1", some "ART1", none⟩ (by decide) rfl⟩

theorem collect_keys_sublist (rows : List (Nat × Option String × Option String)) :
    ((collectCandidates rows).rowCandidates.map (fun p => p.1)).Sublist
      (rows.map (fun t => t.1)) := by
  rw [collect_rowCandidates]
  induction rows with
  | nil => simp
  | cons t rest ih =>
    rw [List.filterMap_cons, List.map_cons]
    by_cases h : effCandsOf t.2.1 t.2.2 = []
    · rw [if_pos h]
      exact ih.cons t.1
    · rw [if_neg h]
      rw [List.map_cons]
      exact ih.cons₂ t.1

/-- C3: sentinel default.  In the assembled-at pass (no write failure), a
selected row that has at least one barcode candidate but whose candidates
are all absent from the resolved lookup map ends the pass with
`board_assembled_on` set to the 1900-01-01 sentinel, not left null. -/
theorem sentinel_default_applied
    (store : List String → List (String × Option PyDateTime)) (n : Nat)
    (db : List BoardRow) (i : Nat) (r : BoardRow)
    (hnd : (db.map (fun x => x.id)).Nodup)
    (hi : db[i]? = some r)
    (hsel : cellTrimEmpty r.assembledOn = true)
    (hc : effCandsOf r.top r.bottom ≠ [])
    (habs : ∀ c ∈ effCandsOf r.top r.bottom, dictGet? (backfillLookup store n db) c = none) :
    (backfillPass store n (fun _ => false) db).db[i]? =
      some { r with assembledOn := DbCell.dt DEFAULT_ASSEMBLY_DATE } := by
  have hrdb : r ∈ db := List.getElem?_mem hi
  have hrsel : r ∈ selectBackfillRows db := List.mem_filter.mpr ⟨hrdb, hsel⟩
  have htr : (r.id, r.top, r.bottom) ∈
      (selectBackfillRows db).map (fun x => (x.id, x.top, x.bottom)) :=
    List.mem_map.mpr ⟨r, hrsel, rfl⟩
  have hselids : ((selectBackfillRows db).map (fun x => x.id)).Nodup :=
    List.Nodup.sublist (List.Sublist.map _ (List.filter_sublist db)) hnd
  -- the shared candidate map holds this row's candidate list
  have hkeys : (((backfillCollected db).rowCandidates).map (fun p => p.1)).Nodup := by
    have hsub := collect_keys_sublist
      ((selectBackfillRows db).map (fun x => (x.id, x.top, x.bottom)))
    rw [List.map_map] at hsub
    exact List.Nodup.sublist hsub hselids
  have hmem : (r.id, effCandsOf r.top r.bottom) ∈ (backfillCollected db).rowCandidates := by
    rw [backfillCollected, collect_rowCandidates]
    exact List.mem_filterMap.mpr ⟨(r.id, r.top, r.bottom), htr, by simp [hc]⟩
  have hrc : dictGet? (backfillCollected db).rowCandidates r.id =
      some (effCandsOf r.top r.bottom) :=
    dictGet?_of_nodup_mem hkeys hmem
  -- this row contributes its candidates, so the pass does not return early
  have hbar : (backfillCollected db).barcodes ≠ [] := by
    rw [backfillCollected, collect_barcodes]
    intro hflat
    exact hc (List.flatten_eq_nil_iff.mp hflat _
      (List.mem_map.mpr ⟨(r.id, r.top, r.bottom), htr, rfl⟩))
  have hnsel : selectBackfillRows db ≠ [] := List.ne_nil_of_mem hrsel
  -- the write buffered for this row is the sentinel
  have hwr : writeOf (backfillCollected db).rowCandidates (backfillLookup store n db) r =
      some (r.id, DEFAULT_ASSEMBLY_DATE) := by
    unfold writeOf
    rw [if_neg (by rw [cellNormEmpty_of_cellTrimEmpty hsel]; exact (by decide : ¬ true = false))]
    rw [hrc]
    rw [show (some (effCandsOf r.top r.bottom)).getD [] = effCandsOf r.top r.bottom from rfl]
    rw [firstHit_none habs]
    rfl
  have hattempt := applyUpdatesGo_noFail (backfillCollected db).rowCandidates
    (backfillLookup store n db) (selectBackfillRows db) [] 0
  rw [List.nil_append, Nat.zero_add] at hattempt
  unfold backfillPass
  rw [if_neg hnsel, if_neg hbar]
  rw [show backfillWriteAttempt store n (fun _ => false) db =
      applyUpdatesGo (backfillCollected db).rowCandidates (backfillLookup store n db)
        (fun _ => false) (selectBackfillRows db) [] 0 from rfl]
  rw [hattempt]
  show (commitWrites db _)[i]? = _
  rw [commitWrites_map, List.getElem?_map, hi]
  show some (List.foldl rowStep r _) = _
  rw [foldl_rowStep_filterMap (backfillCollected db).rowCandidates
    (backfillLookup store n db) (selectBackfillRows db) hselids r hrsel]
  rw [hwr]

/-- Witness for C3: a selected row whose only candidate `"XYZ"` resolves to
nothing ends with the sentinel date. -/
theorem sentinel_default_applied_eval :
    (backfillPass (fun _ => []) 200 (fun _ => false)
      [⟨1, some "XYZ", none, DbCell.null, none⟩]).db[0]? =
      some { (⟨1, some "XYZ", none, DbCell.null, none⟩ : BoardRow) with
        assembledOn := DbCell.dt DEFAULT_ASSEMBLY_DATE } :=
  sentinel_default_applied (fun _ => []) 200
    [⟨1, some "XYZ", none, DbCell.null, none⟩] 0
    ⟨1, some "XYZ", none, DbCell.null, none⟩
    (by decide) rfl (by decide) (by decide) (by decide)

/-- C10 counterexample: when the *only* loaded row has no barcode
candidates at all, `main` returns early (`if not barcodes: return`) before
the write phase, so that row is *not* written: its assembled-at field
stays null and the updated tally is 0, while it is still tallied under
skipped-for-no-barcode. -/
theorem no_barcode_lone_row_not_written :
    (backfillPass (fun _ => []) 200 (fun _ => false)
      [⟨1, none, some "  ", DbCell.null, none⟩]).db =
      [⟨1, none, some "  ", DbCell.null, none⟩] ∧
    (backfillPass (fun _ => []) 200 (fun _ => false)
      [⟨1, none, some "  ", DbCell.null, none⟩]).updated = 0 ∧
    (backfillPass (fun _ => []) 200 (fun _ => false)
      [⟨1, none, some "  ", DbCell.null, none⟩]).skippedNoBarcode = 1 := by
  refine ⟨rfl, rfl, rfl⟩

/-- C10 (amended): provided the pass reaches the write phase — i.e. at
least one loaded row yields a barcode candidate — every loaded row whose
top and bottom identifiers both clean to empty is still written: its
assembled-at field is set to the 1900-01-01 sentinel and it is counted
among the updated rows, even though it was also tallied under
skipped-for-no-barcode. -/
theorem no_barcode_row_written_sentinel
    (store : List String → List (String × Option PyDateTime)) (n : Nat)
    (db : List BoardRow) (i : Nat) (r : BoardRow)
    (hnd : (db.map (fun x => x.id)).Nodup)
    (hi : db[i]? = some r)
    (hsel : cellTrimEmpty r.assembledOn = true)
    (hnc : effCandsOf r.top r.bottom = [])
    (hbar : (backfillCollected db).barcodes ≠ []) :
    (backfillPass store n (fun _ => false) db).db[i]? =
      some { r with assembledOn := DbCell.dt DEFAULT_ASSEMBLY_DATE } ∧
    (backfillPass store n (fun _ => false) db).updated ≥ 1 ∧
    (backfillPass store n (fun _ => false) db).skippedNoBarcode ≥ 1 := by
  have hrdb : r ∈ db := List.getElem?_mem hi
  have hrsel : r ∈ selectBackfillRows db := List.mem_filter.mpr ⟨hrdb, hsel⟩
  have htr : (r.id, r.top, r.bottom) ∈
      (selectBackfillRows db).map (fun x => (x.id, x.top, x.bottom)) :=
    List.mem_map.mpr ⟨r, hrsel, rfl⟩
  have hselids : ((selectBackfillRows db).map (fun x => x.id)).Nodup :=
    List.Nodup.sublist (List.Sublist.map _ (List.filter_sublist db)) hnd
  have hnsel : selectBackfillRows db ≠ [] := List.ne_nil_of_mem hrsel
  -- this row has no entry in the candidate map
  have hrc : dictGet? (backfillCollected db).rowCandidates r.id = none := by
    rw [dictGet?_eq_none_iff]
    intro p hp heq
    rw [backfillCollected, collect_rowCandidates] at hp
    obtain ⟨t, ht, hft⟩ := List.mem_filterMap.mp hp
    obtain ⟨x, hx, rfl⟩ := List.mem_map.mp ht
    by_cases hcx : effCandsOf x.top x.bottom = []
    · rw [if_pos hcx] at hft
      exact Option.noConfusion hft
    · rw [if_neg hcx] at hft
      have hp1 : p.1 = x.id := by
        rw [← Option.some.inj hft]
      have hxr : x = r :=
        List.inj_on_of_nodup_map hnd (List.mem_of_mem_filter hx) hrdb (hp1 ▸ heq)
      exact hcx (hxr ▸ hnc)
  have hwr : writeOf (backfillCollected db).rowCandidates (backfillLookup store n db) r =
      some (r.id, DEFAULT_ASSEMBLY_DATE) := by
    unfold writeOf
    rw [if_neg (by rw [cellNormEmpty_of_cellTrimEmpty hsel]; exact (by decide : ¬ true = false))]
    rw [hrc]
    rfl
  have hattempt := applyUpdatesGo_noFail (backfillCollected db).rowCandidates
    (backfillLookup store n db) (selectBackfillRows db) [] 0
  rw [List.nil_append, Nat.zero_add] at hattempt
  have hwmem : (r.id, DEFAULT_ASSEMBLY_DATE) ∈
      (selectBackfillRows db).filterMap
        (writeOf (backfillCollected db).rowCandidates (backfillLookup store n db)) :=
    List.mem_filterMap.mpr ⟨r, hrsel, hwr⟩
  have hpass : backfillPass store n (fun _ => false) db =
      ⟨commitWrites db ((selectBackfillRows db).filterMap
          (writeOf (backfillCollected db).rowCandidates (backfillLookup store n db))),
        .normal,
        ((selectBackfillRows db).filterMap
          (writeOf (backfillCollected db).rowCandidates (backfillLookup store n db))).length,
        (backfillCollected db).skippedNoBarcode⟩ := by
    unfold backfillPass
    rw [if_neg hnsel, if_neg hbar]
    rw [show backfillWriteAttempt store n (fun _ => false) db =
        applyUpdatesGo (backfillCollected db).rowCandidates (backfillLookup store n db)
          (fun _ => false) (selectBackfillRows db) [] 0 from rfl]
    rw [hattempt]
  refine ⟨?_, ?_, ?_⟩
  · rw [hpass]
    show (commitWrites db _)[i]? = _
    rw [commitWrites_map, List.getElem?_map, hi]
    show some (List.foldl rowStep r _) = _
    rw [foldl_rowStep_filterMap (backfillCollected db).rowCandidates
      (backfillLookup store n db) (selectBackfillRows db) hselids r hrsel]
    rw [hwr]
  · rw [hpass]
    show ((selectBackfillRows db).filterMap
        (writeOf (backfillCollected db).rowCandidates (backfillLookup store n db))).length ≥ 1
    have hlen := List.length_pos.mpr (List.ne_nil_of_mem hwmem)
    omega
  · rw [hpass]
    show (backfillCollected db).skippedNoBarcode ≥ 1
    rw [backfillCollected, collect_skipped]
    have hmemf : (r.id, r.top, r.bottom) ∈
        ((selectBackfillRows db).map (fun x => (x.id, x.top, x.bottom))).filter
          (fun t => effCandsOf t.2.1 t.2.2 = []) :=
      List.mem_filter.mpr ⟨htr, by simp [hnc]⟩
    have hlen := List.length_pos.mpr (List.ne_nil_of_mem hmemf)
    omega

/-- Witness for C10 (amended): a no-barcode row next to a row with a
candidate is written with the sentinel, counted as updated, and counted as
skipped-for-no-barcode. -/
theorem no_barcode_row_written_sentinel_eval :
    (backfillPass (fun _ => []) 200 (fun _ => false)
      [⟨1, none, some "  ", DbCell.null, none⟩,
       ⟨2, some "123", none, DbCell.null, none⟩]).db[0]? =
      some { (⟨1, none, some "  ", DbCell.null, none⟩ : BoardRow) with
        assembledOn := DbCell.dt DEFAULT_ASSEMBLY_DATE } ∧
    (backfillPass (fun _ => []) 200 (fun _ => false)
      [⟨1, none, some "  ", DbCell.null, none⟩,
       ⟨2, some "123", none, DbCell.null, none⟩]).updated ≥ 1 ∧
    (backfillPass (fun _ => []) 200 (fun _ => false)
      [⟨1, none, some "  ", DbCell.null, none⟩,
       ⟨2, some "123", none, DbCell.null, none⟩]).skippedNoBarcode ≥ 1 :=
  no_barcode_row_written_sentinel (fun _ => []) 200
    [⟨1, none, some "  ", DbCell.null, none⟩, ⟨2, some "123", none, DbCell.null, none⟩] 0
    ⟨1, none, some "  ", DbCell.null, none⟩
    (by decide) rfl (by decide) (by decide) (by decide)

theorem dictGet?_rows_foldl (k : String) (rows : List (String × Option PyDateTime)) :
    ∀ init : List (String × Option PyDateTime),
      dictGet? (rows.foldl (fun out row => dictInsert out (pyStrip row.1) row.2) init) k ≠ none ↔
        (dictGet? init k ≠ none ∨ ∃ row ∈ rows, pyStrip row.1 = k) := by
  induction rows with
  | nil =>
    intro init
    simp
  | cons row rest ih =>
    intro init
    rw [List.foldl_cons]
    rw [ih (dictInsert init (pyStrip row.1) row.2)]
    unfold dictInsert
    rw [dictGet?_cons]
    by_cases h : pyStrip row.1 = k
    · simp [h]
    · simp only [if_neg h]
      constructor
      · rintro (ha | ⟨x, hx, hxk⟩)
        · exact Or.inl ha
        · exact Or.inr ⟨x, List.mem_cons_of_mem row hx, hxk⟩
      · rintro (ha | ⟨x, hx, hxk⟩)
        · exact Or.inl ha
        · rcases List.mem_cons.mp hx with he | ht
          · exact absurd (he ▸ hxk) h
          · exact Or.inr ⟨x, ht, hxk⟩

theorem dictGet?_chunks_foldl (store : List String → List (String × Option PyDateTime))
    (k : String) (chunks : List (List String)) :
    ∀ init : List (String × Option PyDateTime),
      dictGet? (chunks.foldl (fun out chunk =>
          (store chunk).foldl (fun out row => dictInsert out (pyStrip row.1) row.2) out) init) k ≠ none ↔
        (dictGet? init k ≠ none ∨
          ∃ chunk ∈ chunks, ∃ row ∈ store chunk, pyStrip row.1 = k) := by
  induction chunks with
  | nil =>
    intro init
    simp
  | cons c rest ih =>
    intro init
    rw [List.foldl_cons]
    rw [ih]
    rw [dictGet?_rows_foldl]
    constructor
    · rintro ((ha | ⟨row, hrow, hk⟩) | ⟨c2, hc2, row, hrow, hk⟩)
      · exact Or.inl ha
      · exact Or.inr ⟨c, List.mem_cons_self c rest, row, hrow, hk⟩
      · exact Or.inr ⟨c2, List.mem_cons_of_mem c hc2, row, hrow, hk⟩
    · rintro (ha | ⟨c2, hc2, row, hrow, hk⟩)
      · exact Or.inl (Or.inl ha)
      · rcases List.mem_cons.mp hc2 with he | ht
        · exact Or.inl (Or.inr ⟨row, he ▸ hrow, hk⟩)
        · exact Or.inr ⟨c2, ht, row, hrow, hk⟩

/-- C6: resolver result map.  A candidate identifier is present in the
result map of the paced fetch (with any value, possibly a `NULL` assembly
timestamp) exactly when some row of some batch query returned it; so an
identifier returned with a null timestamp (`dictGet? = some none`) is
distinguishable from one absent from every batch (`dictGet? = none`), and
every store row whose identifier appears is inserted into the map. -/
theorem resolver_inserts_and_distinguishes
    (store : List String → List (String × Option PyDateTime))
    (barcodes : List String) (n : Nat) (k : String) :
    dictGet? (fetchResolve store barcodes n) k ≠ none ↔
      ∃ chunk ∈ chunkList (max 1 n) (dedupNorm barcodes),
        ∃ row ∈ store chunk, pyStrip row.1 = k := by
  unfold fetchResolve
  by_cases hb : barcodes = []
  · rw [if_pos hb, hb]
    show dictGet? [] k ≠ none ↔ _
    rw [show dedupNorm [] = [] from rfl]
    rw [show chunkList (max 1 n) ([] : List String) = [] from rfl]
    simp [dictGet?_nil]
  · rw [if_neg hb]
    rw [dictGet?_chunks_foldl]
    simp [dictGet?_nil]

end CMTools
